import Mathlib

/-!
Shallow embedding of `src/git_analytics.py` (function `get_commit_log` and its
helpers), together with theorems checking the natural-language specification
against it.  Python `datetime` timestamps are modelled as integer seconds since
the Unix epoch; library functions used by the script (`datetime.fromisoformat`,
`pytz` for America/Los_Angeles, `str.strip`, `str.split`, `str.splitlines`,
`list.sort`) are modelled from their documented behaviour, restricted to the
shapes of data the script feeds them (second-granularity ISO-8601 text).
-/

namespace GitAnalytics

/-! ### Calendar arithmetic (model of Python `datetime` date handling) -/

/-- Gregorian leap-year test, as used by Python `datetime`. -/
def isLeap (y : Int) : Bool := (y % 4 == 0 && y % 100 != 0) || (y % 400 == 0)

/-- Number of days in a month (month in 1..12). -/
def daysInMonth (y : Int) (m : Nat) : Nat :=
  if m = 2 then (if isLeap y then 29 else 28)
  else if m = 4 ∨ m = 6 ∨ m = 9 ∨ m = 11 then 30
  else 31

/-- Days from the civil date (y, m, d) to 1970-01-01 (negative before the
epoch); standard proleptic-Gregorian day-count algorithm. -/
def daysFromCivil (y : Int) (m d : Nat) : Int :=
  let y2 : Int := if m ≤ 2 then y - 1 else y
  let era : Int := Int.ediv y2 400
  let yoe : Int := y2 - era * 400
  let mp : Int := Int.emod ((m : Int) + 9) 12
  let doy : Int := Int.ediv (153 * mp + 2) 5 + (d : Int) - 1
  let doe : Int := yoe * 365 + Int.ediv yoe 4 - Int.ediv yoe 100 + doy
  era * 146097 + doe - 719468

/-- A calendar day in the target timezone: (year, month, day). -/
abbrev PDate := Int × Nat × Nat

/-- Civil date from a day count relative to 1970-01-01 (inverse of
`daysFromCivil`). -/
def civilFromDays (z0 : Int) : PDate :=
  let z := z0 + 719468
  let era := Int.ediv z 146097
  let doe := z - era * 146097
  let yoe := Int.ediv (doe - Int.ediv doe 1460 + Int.ediv doe 36524 - Int.ediv doe 146096) 365
  let y := yoe + era * 400
  let doy := doe - (365 * yoe + Int.ediv yoe 4 - Int.ediv yoe 100)
  let mp := Int.ediv (5 * doy + 2) 153
  let d := doy - Int.ediv (153 * mp + 2) 5 + 1
  let m := if mp < 10 then mp + 3 else mp - 9
  (if m ≤ 2 then y + 1 else y, m.toNat, d.toNat)

/-- Python `datetime.weekday()` (Monday = 0 .. Sunday = 6) from a day count;
1970-01-01 was a Thursday. -/
def pyWeekdayOfDays (z : Int) : Nat := (Int.emod (z + 3) 7).toNat

/-- Python `weekday()` of a calendar day, as `strptime(day, "%Y-%m-%d").weekday()`
computes it for a day key (line 101 of the script). -/
def pyWeekdayOfDate (d : PDate) : Nat := pyWeekdayOfDays (daysFromCivil d.1 d.2.1 d.2.2)

/-! ### Model of `datetime.fromisoformat` -/

/-- Result of `datetime.fromisoformat`: a (possibly timezone-aware) datetime.
`off` is the UTC offset in seconds, `none` for a naive datetime. -/
structure IsoDT where
  year : Int
  month : Nat
  day : Nat
  hour : Nat
  minute : Nat
  second : Nat
  off : Option Int
deriving DecidableEq

def isDigit (c : Char) : Bool := '0' ≤ c && c ≤ '9'

def digitVal (c : Char) : Nat := c.toNat - '0'.toNat

/-- Parse exactly two digits. -/
def parse2 : List Char → Option (Nat × List Char)
  | a :: b :: r => if isDigit a && isDigit b then some (10 * digitVal a + digitVal b, r) else none
  | _ => none

/-- Parse exactly four digits. -/
def parse4 : List Char → Option (Nat × List Char)
  | a :: b :: c :: d :: r =>
    if isDigit a && isDigit b && isDigit c && isDigit d then
      some (1000 * digitVal a + 100 * digitVal b + 10 * digitVal c + digitVal d, r)
    else none
  | _ => none

/-- Parse a UTC-offset tail `+HH:MM` or `-HH:MM` that must consume the whole
remainder, or an empty remainder (naive datetime); offset bounded below 24 h
as Python `timezone` requires. -/
def parseOffTail : List Char → Option (Option Int)
  | [] => some none
  | c :: r =>
    if c = '+' ∨ c = '-' then
      match parse2 r with
      | some (oh, r2) =>
        match r2 with
        | ':' :: r3 =>
          match parse2 r3 with
          | some (om, r4) =>
            if r4 = [] ∧ oh ≤ 23 ∧ om ≤ 59 then
              some (some ((if c = '-' then -1 else 1) * ((oh : Int) * 3600 + om * 60)))
            else none
          | none => none
        | _ => none
      | none => none
    else none

/-- Parse the time-of-day part `HH[:MM[:SS]]` followed by an optional offset. -/
def parseTimeTail (cs : List Char) : Option (Nat × Nat × Nat × Option Int) :=
  match parse2 cs with
  | none => none
  | some (h, r) =>
    if h ≥ 24 then none else
    match r with
    | ':' :: r2 =>
      match parse2 r2 with
      | none => none
      | some (mi, r3) =>
        if mi ≥ 60 then none else
        match r3 with
        | ':' :: r4 =>
          match parse2 r4 with
          | none => none
          | some (s, r5) =>
            if s ≥ 60 then none else
            match parseOffTail r5 with
            | some off => some (h, mi, s, off)
            | none => none
        | _ =>
          match parseOffTail r3 with
          | some off => some (h, mi, 0, off)
          | none => none
    | _ =>
      match parseOffTail r with
      | some off => some (h, 0, 0, off)
      | none => none

/-- Model of Python `datetime.fromisoformat` on second-granularity input:
`YYYY-MM-DD` optionally followed by a single separator character (any
character, as Python accepts) and `HH[:MM[:SS]][±HH:MM]`.  Returns `none`
where Python raises `ValueError`. -/
def pyFromIsoList (cs : List Char) : Option IsoDT :=
  match parse4 cs with
  | none => none
  | some (y, r1) =>
    match r1 with
    | '-' :: r2 =>
      match parse2 r2 with
      | none => none
      | some (mo, r3) =>
        match r3 with
        | '-' :: r4 =>
          match parse2 r4 with
          | none => none
          | some (d, r5) =>
            if 1 ≤ y ∧ 1 ≤ mo ∧ mo ≤ 12 ∧ 1 ≤ d ∧ d ≤ daysInMonth y mo then
              match r5 with
              | [] => some ⟨y, mo, d, 0, 0, 0, none⟩
              | _sep :: r6 =>
                match parseTimeTail r6 with
                | some (h, mi, s, off) => some ⟨y, mo, d, h, mi, s, off⟩
                | none => none
            else none
        | _ => none
    | _ => none

def pyFromIso (s : String) : Option IsoDT := pyFromIsoList s.data

/-! ### String helpers used by the script -/

/-- The replacement text `+00:00` substituted for `Z`. -/
def zRepl : List Char := ['+', '0', '0', ':', '0', '0']

/-- Model of `date_str.replace("Z", "+00:00")` (line 49): replaces EVERY
occurrence of `Z`. -/
def replaceZlist : List Char → List Char
  | [] => []
  | c :: cs => if c = 'Z' then zRepl ++ replaceZlist cs else c :: replaceZlist cs

def pyReplaceZ (s : String) : String := String.mk (replaceZlist s.data)

/-- Modelled from the spec: replace only a TRAILING `Z` by `+00:00` (the
reading the spec gives of the rewrite), for comparison with `pyReplaceZ`. -/
def replaceTrailingZlist : List Char → List Char
  | [] => []
  | [c] => if c = 'Z' then zRepl else [c]
  | c :: c2 :: cs => c :: replaceTrailingZlist (c2 :: cs)

def replaceTrailingZ (s : String) : String := String.mk (replaceTrailingZlist s.data)

/-- Whether the character list has a `Z` that is not its last character. -/
def hasNonTrailingZ : List Char → Bool
  | [] => false
  | c :: cs => (c == 'Z' && !cs.isEmpty) || hasNonTrailingZ cs

/-- Whitespace characters stripped by Python `str.strip()`. -/
def isPySpace (c : Char) : Bool :=
  c = ' ' || c = '\t' || c = '\n' || c = '\r' || c = '\x0b' || c = '\x0c'

/-- Model of Python `str.strip()`. -/
def pyStrip (s : String) : String :=
  String.mk (((s.data.dropWhile isPySpace).reverse.dropWhile isPySpace).reverse)

/-- Split a character list at its first `|`, if any. -/
def splitOnceBar : List Char → Option (List Char × List Char)
  | [] => none
  | c :: cs =>
    if c = '|' then some ([], cs)
    else
      match splitOnceBar cs with
      | some (a, b) => some (c :: a, b)
      | none => none

/-- Model of Python `line.split("|", 2)`: at most two splits, remainder kept
verbatim (1 to 3 fields). -/
def splitBar2 (s : String) : List String :=
  match splitOnceBar s.data with
  | none => [s]
  | some (a, r) =>
    match splitOnceBar r with
    | none => [String.mk a, String.mk r]
    | some (b, r2) => [String.mk a, String.mk b, String.mk r2]

/-- Helper for `pySplitlines`; the accumulator holds the current line
reversed. -/
def splitlinesAux : List Char → List Char → List String
  | [], acc => if acc.isEmpty then [] else [String.mk acc.reverse]
  | '\r' :: '\n' :: r, acc => String.mk acc.reverse :: splitlinesAux r []
  | '\n' :: r, acc => String.mk acc.reverse :: splitlinesAux r []
  | '\r' :: r, acc => String.mk acc.reverse :: splitlinesAux r []
  | c :: r, acc => splitlinesAux r (c :: acc)

/-- Model of Python `str.splitlines()` restricted to the `\n`, `\r\n`, `\r`
terminators (no trailing empty line). -/
def pySplitlines (s : String) : List String := splitlinesAux s.data []

/-! ### Model of `pytz.timezone("America/Los_Angeles")` -/

/-- UTC instant (seconds) at which DST starts in year `y`: second Sunday of
March, 02:00 local standard time = 10:00 UTC (post-2007 US rule, as pytz
applies for these years). -/
def laDstStart (y : Int) : Int :=
  let d1 := daysFromCivil y 3 1
  let firstSun := d1 + ((6 - pyWeekdayOfDays d1) % 7)
  (firstSun + 7) * 86400 + 10 * 3600

/-- UTC instant (seconds) at which DST ends in year `y`: first Sunday of
November, 02:00 local daylight time = 09:00 UTC. -/
def laDstEnd (y : Int) : Int :=
  let d1 := daysFromCivil y 11 1
  let firstSun := d1 + ((6 - pyWeekdayOfDays d1) % 7)
  firstSun * 86400 + 9 * 3600

/-- Whether a UTC instant falls in Pacific daylight-saving time; the year is
taken from the local standard date of the instant. -/
def laIsDst (utc : Int) : Bool :=
  let y := (civilFromDays (Int.ediv (utc - 8 * 3600) 86400)).1
  laDstStart y ≤ utc && utc < laDstEnd y

/-- UTC offset (seconds) of America/Los_Angeles at a UTC instant: -7 h during
DST, -8 h otherwise. -/
def laOffset (utc : Int) : Int := if laIsDst utc then -7 * 3600 else -8 * 3600

/-- Local wall-clock seconds of the PST-converted datetime. -/
def localWall (utc : Int) : Int := utc + laOffset utc

/-- Day count of the local calendar day of a converted timestamp. -/
def localDays (utc : Int) : Int := Int.ediv (localWall utc) 86400

/-- The local calendar day (what `pst_time.strftime("%Y-%m-%d")` renders;
the YYYY-MM-DD key string is in bijection with this triple). -/
def dayOf (utc : Int) : PDate := civilFromDays (localDays utc)

/-- Local (hour, minute, second) of a converted timestamp. -/
def localHMS (utc : Int) : Nat × Nat × Nat :=
  let w := (Int.emod (localWall utc) 86400).toNat
  (w / 3600, w % 3600 / 60, w % 60)

/-! ### The parsing loop (lines 43-53 of the script) -/

/-- One parsed commit: `(email, commit_date, title)` with the PST-converted
aware datetime represented by its UTC instant in seconds (aware Python
datetimes compare and equate by instant). -/
structure CommitRec where
  email : String
  utc : Int
  title : String
deriving DecidableEq

/-- UTC instant of a parsed datetime, as `utc_time.astimezone(pst)` fixes it:
an aware datetime subtracts its own offset; a naive one is interpreted in the
system local timezone, whose offset `sysOff` is an environment input. -/
def toUtcSec (sysOff : Int) (dt : IsoDT) : Int :=
  daysFromCivil dt.year dt.month dt.day * 86400
    + dt.hour * 3600 + dt.minute * 60 + dt.second - dt.off.getD sysOff

/-- Parse one log line per lines 48-51: split on the first two `|`, require
exactly three fields, parse the date after replacing every `Z` by `+00:00`,
strip email and title.  `none` models the caught `ValueError`. -/
def parseLine (sysOff : Int) (line : String) : Option CommitRec :=
  match splitBar2 line with
  | [e, d, t] =>
    match pyFromIso (pyReplaceZ d) with
    | some dt => some ⟨pyStrip e, toUtcSec sysOff dt, pyStrip t⟩
    | none => none
  | _ => none

/-- Warning printed for a malformed line (the Python error detail after the
colon is abstracted away). -/
def warnMsg (line : String) : String :=
  "Warning: Could not parse line \x27" ++ line ++ "\x27"

/-- The parsing loop: returns (`parsed_commits`, warnings printed), in line
order.  Whitespace-only lines are skipped silently (line 45-46). -/
def processLines (sysOff : Int) : List String → List CommitRec × List String
  | [] => ([], [])
  | l :: rest =>
    let acc := processLines sysOff rest
    if pyStrip l = "" then acc
    else
      match parseLine sysOff l with
      | some r => (r :: acc.1, acc.2)
      | none => (acc.1, warnMsg l :: acc.2)

/-! ### Sorting (line 60) -/

/-- Lexicographic strict order on character lists by code point (Python `<`
on `str`). -/
def listLt : List Char → List Char → Bool
  | [], [] => false
  | [], _ :: _ => true
  | _ :: _, [] => false
  | a :: as, b :: bs => if a = b then listLt as bs else decide (a.toNat < b.toNat)

/-- The sort key relation of line 60, `key=lambda x: (x[0], x[1])`:
committer email ascending, then timestamp ascending (non-strict). -/
def recLe (a b : CommitRec) : Bool :=
  listLt a.email.data b.email.data
    || (decide (a.email = b.email) && decide (a.utc ≤ b.utc))

/-- Model of `parsed_commits.sort(...)`: the sort of Python is stable, so its
result coincides with a stable insertion sort under the same total
preorder. -/
def sortCommits (rs : List CommitRec) : List CommitRec :=
  List.insertionSort (fun a b => recLe a b = true) rs

/-! ### Grouping (lines 63-65) and daily counts (lines 68-71) -/

/-- Append a pair to the group of key `e` of an association list, creating
the group at the end when absent: the `defaultdict(list)` update of lines
63-65 (keys in first-seen order, values appended in iteration order). -/
def insertGroup (acc : List (String × List (Int × String))) (e : String)
    (p : Int × String) : List (String × List (Int × String)) :=
  match acc with
  | [] => [(e, [p])]
  | (k, v) :: t => if k = e then (k, v ++ [p]) :: t else (k, v) :: insertGroup t e p

/-- The `commits_by_email` mapping built from the (sorted) records. -/
def commitsByEmail (rs : List CommitRec) : List (String × List (Int × String)) :=
  rs.foldl (fun acc r => insertGroup acc r.email (r.utc, r.title)) []

/-- Read a group (empty when the key is absent), as `commits_by_email[e]`. -/
def groupGet : List (String × List (Int × String)) → String → List (Int × String)
  | [], _ => []
  | (k, v) :: t, e => if k = e then v else groupGet t e

/-- Increment the count of a calendar day in an association list, creating
the key at the end when absent: the `defaultdict(int)` update of lines
68-71. -/
def bumpDay (acc : List (PDate × Nat)) (d : PDate) : List (PDate × Nat) :=
  match acc with
  | [] => [(d, 1)]
  | (k, n) :: t => if k = d then (k, n + 1) :: t else (k, n) :: bumpDay t d

/-- The `commits_per_day` mapping (DailyCounts), keyed by the local calendar
day of each record. -/
def commitsPerDay (rs : List CommitRec) : List (PDate × Nat) :=
  rs.foldl (fun acc r => bumpDay acc (dayOf r.utc)) []

/-! ### Averages (lines 94-106) -/

/-- `total_commits = sum(commits_per_day.values())` (line 96). -/
def totalOf (cs : List (PDate × Nat)) : Nat := (cs.map Prod.snd).sum

/-- `num_days = len(commits_per_day)` (line 95). -/
def numDaysOf (cs : List (PDate × Nat)) : Nat := cs.length

/-- `weekday_days`: the day keys whose weekday is Monday..Friday
(lines 99-102). -/
def weekdayKeysOf (cs : List (PDate × Nat)) : List PDate :=
  (cs.map Prod.fst).filter (fun d => pyWeekdayOfDate d < 5)

/-- `avg_per_day = total_commits / num_days if num_days else 0` (line 105);
the float quotient is modelled as the exact rational. -/
def avgPerDayOf (cs : List (PDate × Nat)) : ℚ :=
  if numDaysOf cs ≠ 0 then (totalOf cs : ℚ) / (numDaysOf cs : ℚ) else 0

/-- `avg_per_weekday = total_commits / num_weekdays if num_weekdays else 0`
(line 106); note the numerator is the total over ALL days. -/
def avgPerWeekdayOf (cs : List (PDate × Nat)) : ℚ :=
  if (weekdayKeysOf cs).length ≠ 0 then
    (totalOf cs : ℚ) / ((weekdayKeysOf cs).length : ℚ)
  else 0

/-- Modelled from the spec: the per-day-average formula restricted to
weekday keys (commits on Monday-Friday days divided by the number of such
days, 0 if none), for comparison with `avgPerWeekdayOf`. -/
def specAvgPerWeekday (cs : List (PDate × Nat)) : ℚ :=
  let wk := cs.filter (fun p => pyWeekdayOfDate p.1 < 5)
  if wk.length ≠ 0 then (totalOf wk : ℚ) / (wk.length : ℚ) else 0

/-! ### Report rendering (lines 74-110) -/

def pad2 (n : Nat) : String := if n < 10 then "0" ++ toString n else toString n

def pad4 (n : Nat) : String :=
  if n < 10 then "000" ++ toString n
  else if n < 100 then "00" ++ toString n
  else if n < 1000 then "0" ++ toString n
  else toString n

/-- The `%Y-%m-%d` rendering of a local calendar day. -/
def dayKeyStr (d : PDate) : String :=
  pad4 d.1.toNat ++ "-" ++ pad2 d.2.1 ++ "-" ++ pad2 d.2.2

/-- Python `%A` weekday names (argument per `weekday()`, Monday = 0). -/
def weekdayName : Nat → String
  | 0 => "Monday"
  | 1 => "Tuesday"
  | 2 => "Wednesday"
  | 3 => "Thursday"
  | 4 => "Friday"
  | 5 => "Saturday"
  | _ => "Sunday"

/-- Non-strict code-point order on strings, as Python `sorted` uses. -/
def strLe (a b : String) : Bool := !(listLt b.data a.data)

/-- The `strftime("%A, %Y-%m-%d %I:%M:%S %p %Z")` rendering of a converted
timestamp (line 83). -/
def strftimeLine (utc : Int) : String :=
  let d := dayOf utc
  let h := (localHMS utc).1
  let mi := (localHMS utc).2.1
  let s := (localHMS utc).2.2
  let h12 := if h % 12 = 0 then 12 else h % 12
  let ampm := if h < 12 then "AM" else "PM"
  let tzn := if laIsDst utc then "PDT" else "PST"
  weekdayName (pyWeekdayOfDate d) ++ ", " ++ dayKeyStr d ++ " "
    ++ pad2 h12 ++ ":" ++ pad2 mi ++ ":" ++ pad2 s ++ " " ++ ampm ++ " " ++ tzn

/-- Two-decimal rendering of an average, modelling the `:.2f` float format
(round to nearest hundredth; float rounding detail abstracted). -/
def fmt2dec (q : ℚ) : String :=
  let c : Int := ⌊q * 100 + 1 / 2⌋
  toString (Int.ediv c 100) ++ "." ++ pad2 (Int.emod c 100).toNat

/-- The report printed on the success path (lines 74-110), as a list of
output lines in order. -/
def reportLines (repoPath : String) (sorted : List CommitRec) : List String :=
  let groups := commitsByEmail sorted
  let counts := commitsPerDay sorted
  let emails := List.insertionSort (fun a b => strLe a b = true) (groups.map Prod.fst)
  let sortedDays :=
    List.insertionSort (fun a b : PDate × Nat => strLe (dayKeyStr a.1) (dayKeyStr b.1) = true) counts
  let eq80 := String.mk (List.replicate 80 '=')
  let dash60 := String.mk (List.replicate 60 '-')
  ["", "Commits grouped by committer email (PST) for repository at \x27"
      ++ repoPath ++ "\x27:", eq80]
  ++ emails.flatMap (fun e =>
      let cs := groupGet groups e
      ["", "📧 " ++ e ++ " (" ++ toString cs.length ++ " commits):", dash60]
      ++ cs.map (fun pr => "  " ++ strftimeLine pr.1 ++ " — " ++ pr.2))
  ++ [eq80,
      "Total commits: " ++ toString ((groups.map (fun g => g.2.length)).sum),
      "Total committers: " ++ toString groups.length,
      "", "Commits per day:"]
  ++ sortedDays.map (fun p => "  " ++ dayKeyStr p.1 ++ ": " ++ toString p.2 ++ " commits")
  ++ ["Commit Averages:",
      "  Average commits per day: " ++ fmt2dec (avgPerDayOf counts),
      "  Average commits per weekday (no weekends): " ++ fmt2dec (avgPerWeekdayOf counts)]

/-! ### The whole function `get_commit_log` -/

/-- The environment of one run: the two `os.path.exists` checks, the
subprocess outcome (`Except.error` is `CalledProcessError` carrying the
captured output, `Except.ok` the captured stdout), and the system local UTC
offset `astimezone` applies to naive datetimes. -/
structure Env where
  pathExists : Bool
  gitExists : Bool
  gitRun : Except String String
  sysOff : Int

/-- What a run makes observable: the lines printed to stdout, the returned
value (`none` models returning `None`), and whether the git subprocess was
invoked. -/
structure RunResult where
  printed : List String
  result : Option (List CommitRec)
  gitInvoked : Bool
deriving DecidableEq

/-- The list of valid commits parsed from the git output in the environment
(empty when the subprocess failed). -/
def parsedOf (env : Env) : List CommitRec :=
  match env.gitRun with
  | .ok out => (processLines env.sysOff (pySplitlines out)).1
  | .error _ => []

/-- Shallow embedding of `get_commit_log` (lines 11-120): validation,
subprocess, parsing loop, empty check, sort, grouping, counting, report;
every anticipated error path prints a diagnostic and returns `None` without
raising. -/
def getCommitLog (env : Env) (repoPath : String) : RunResult :=
  if !env.pathExists then
    ⟨["Error: Path \x27" ++ repoPath ++ "\x27 does not exist."], none, false⟩
  else if !env.gitExists then
    ⟨["Error: \x27" ++ repoPath ++ "\x27 is not a valid Git repository."], none, false⟩
  else
    match env.gitRun with
    | .error out =>
      ⟨["Error running git command: " ++ out], none, true⟩
    | .ok logOut =>
      let pw := processLines env.sysOff (pySplitlines logOut)
      if pw.1.isEmpty then
        ⟨pw.2 ++ ["Warning: No valid commits found in repository \x27" ++ repoPath ++ "\x27"],
          none, true⟩
      else
        let sorted := sortCommits pw.1
        ⟨pw.2 ++ reportLines repoPath sorted, some sorted, true⟩

/-! ## Helper lemmas -/

theorem listLt_irrefl : ∀ cs : List Char, listLt cs cs = false := by
  intro cs
  induction cs with
  | nil => rfl
  | cons c cs ih => simp [listLt, ih]

theorem listLt_trans : ∀ cs ds es : List Char,
    listLt cs ds = true → listLt ds es = true → listLt cs es = true := by
  intro cs
  induction cs with
  | nil =>
    intro ds es h1 h2
    cases ds with
    | nil => simp [listLt] at h1
    | cons b bs =>
      cases es with
      | nil => simp [listLt] at h2
      | cons c cs2 => simp [listLt]
  | cons a as ih =>
    intro ds es h1 h2
    cases ds with
    | nil => simp [listLt] at h1
    | cons b bs =>
      cases es with
      | nil => simp [listLt] at h2
      | cons c cs2 =>
        simp only [listLt] at h1 h2 ⊢
        by_cases hab : a = b
        · subst hab
          rw [if_pos rfl] at h1
          by_cases hbc : a = c
          · subst hbc
            rw [if_pos rfl] at h2 ⊢
            exact ih bs cs2 h1 h2
          · rw [if_neg hbc] at h2 ⊢
            exact h2
        · rw [if_neg hab] at h1
          by_cases hbc : b = c
          · subst hbc
            rw [if_neg hab]
            exact h1
          · rw [if_neg hbc] at h2
            have hv1 : a.toNat < b.toNat := by simpa using h1
            have hv2 : b.toNat < c.toNat := by simpa using h2
            have hv : a.toNat < c.toNat := lt_trans hv1 hv2
            have hac : ¬ a = c := by
              intro h; subst h; exact lt_irrefl _ hv
            rw [if_neg hac]
            simpa using hv

theorem listLt_tri : ∀ cs ds : List Char,
    listLt cs ds = true ∨ cs = ds ∨ listLt ds cs = true := by
  intro cs
  induction cs with
  | nil =>
    intro ds
    cases ds with
    | nil => exact Or.inr (Or.inl rfl)
    | cons b bs => exact Or.inl (by simp [listLt])
  | cons a as ih =>
    intro ds
    cases ds with
    | nil => exact Or.inr (Or.inr (by simp [listLt]))
    | cons b bs =>
      by_cases hab : a = b
      · subst hab
        rcases ih bs with h | h | h
        · exact Or.inl (by simp [listLt, h])
        · exact Or.inr (Or.inl (by rw [h]))
        · exact Or.inr (Or.inr (by simp [listLt, h]))
      · have hv : a.toNat ≠ b.toNat := by
          intro h
          exact hab (Char.ext (UInt32.ext h))
        rcases Nat.lt_or_ge a.toNat b.toNat with h | h
        · exact Or.inl (by simp [listLt, hab, h])
        · have hlt : b.toNat < a.toNat := lt_of_le_of_ne h (fun hh => hv hh.symm)
          have hba : ¬ b = a := fun hh => hab hh.symm
          exact Or.inr (Or.inr (by simp [listLt, hba, hlt]))

theorem string_eq_of_data_eq {a b : String} (h : a.data = b.data) : a = b :=
  congrArg String.mk h

instance : IsTrans CommitRec (fun a b => recLe a b = true) := by
  constructor
  intro a b c hab hbc
  simp only [recLe, Bool.or_eq_true, Bool.and_eq_true, decide_eq_true_eq] at hab hbc ⊢
  rcases hab with hab | ⟨hab1, hab2⟩
  · rcases hbc with hbc | ⟨hbc1, hbc2⟩
    · exact Or.inl (listLt_trans _ _ _ hab hbc)
    · exact Or.inl (by rw [← hbc1]; exact hab)
  · rcases hbc with hbc | ⟨hbc1, hbc2⟩
    · exact Or.inl (by rw [hab1]; exact hbc)
    · exact Or.inr ⟨hab1.trans hbc1, le_trans hab2 hbc2⟩

instance : IsTotal CommitRec (fun a b => recLe a b = true) := by
  constructor
  intro a b
  simp only [recLe, Bool.or_eq_true, Bool.and_eq_true, decide_eq_true_eq]
  rcases listLt_tri a.email.data b.email.data with h | h | h
  · exact Or.inl (Or.inl h)
  · have he : a.email = b.email := string_eq_of_data_eq h
    rcases Int.le_total a.utc b.utc with hu | hu
    · exact Or.inl (Or.inr ⟨he, hu⟩)
    · exact Or.inr (Or.inr ⟨he.symm, hu⟩)
  · exact Or.inr (Or.inl h)

theorem replaceZ_eq_replaceTrailing :
    ∀ cs : List Char, hasNonTrailingZ cs = false →
      replaceZlist cs = replaceTrailingZlist cs := by
  intro cs
  induction cs with
  | nil => intro _; rfl
  | cons c cs ih =>
    intro h
    simp only [hasNonTrailingZ, Bool.or_eq_false_iff, Bool.and_eq_false_iff] at h
    obtain ⟨h1, h2⟩ := h
    cases cs with
    | nil =>
      by_cases hc : c = 'Z' <;>
        simp [replaceZlist, replaceTrailingZlist, hc, zRepl]
    | cons c2 cs2 =>
      have hc : ¬ c = 'Z' := by
        rcases h1 with h1 | h1
        · simpa using h1
        · simp [List.isEmpty] at h1
      have e1 : replaceZlist (c :: c2 :: cs2)
          = if c = 'Z' then zRepl ++ replaceZlist (c2 :: cs2)
            else c :: replaceZlist (c2 :: cs2) := rfl
      have e2 : replaceTrailingZlist (c :: c2 :: cs2)
          = c :: replaceTrailingZlist (c2 :: cs2) := rfl
      rw [e1, if_neg hc, ih h2, e2]

theorem processLines_count (sysOff : Int) (ls : List String) :
    (processLines sysOff ls).1.length + (processLines sysOff ls).2.length
      = (ls.filter (fun l => !decide (pyStrip l = ""))).length := by
  induction ls with
  | nil => rfl
  | cons l rest ih =>
    by_cases hb : pyStrip l = ""
    · have e1 : processLines sysOff (l :: rest) = processLines sysOff rest := by
        simp [processLines, hb]
      have e2 : List.filter (fun x => !decide (pyStrip x = "")) (l :: rest)
          = List.filter (fun x => !decide (pyStrip x = "")) rest := by
        simp [List.filter_cons, hb]
      rw [e1, e2]
      exact ih
    · have e2 : List.filter (fun x => !decide (pyStrip x = "")) (l :: rest)
          = l :: List.filter (fun x => !decide (pyStrip x = "")) rest := by
        simp [List.filter_cons, hb]
      cases hp : parseLine sysOff l with
      | some r =>
        have e1 : processLines sysOff (l :: rest)
            = (r :: (processLines sysOff rest).1, (processLines sysOff rest).2) := by
          simp [processLines, hb, hp]
        rw [e1, e2]
        simp only [List.length_cons]
        omega
      | none =>
        have e1 : processLines sysOff (l :: rest)
            = ((processLines sysOff rest).1, warnMsg l :: (processLines sysOff rest).2) := by
          simp [processLines, hb, hp]
        rw [e1, e2]
        simp only [List.length_cons]
        omega

theorem groupGet_insertGroup (acc : List (String × List (Int × String)))
    (e : String) (p : Int × String) (q : String) :
    groupGet (insertGroup acc e p) q
      = if q = e then groupGet acc q ++ [p] else groupGet acc q := by
  induction acc with
  | nil =>
    by_cases hq : q = e
    · subst hq; simp [insertGroup, groupGet]
    · have hq2 : ¬ e = q := fun h => hq h.symm
      simp [insertGroup, groupGet, hq, hq2]
  | cons kv t ih =>
    obtain ⟨k, v⟩ := kv
    by_cases hk : k = e
    · subst hk
      by_cases hq : q = k
      · subst hq; simp [insertGroup, groupGet]
      · have hq2 : ¬ k = q := fun h => hq h.symm
        simp [insertGroup, groupGet, hq, hq2]
    · by_cases hq : k = q
      · subst hq
        have hq2 : ¬ k = e := hk
        simp [insertGroup, groupGet, hk, hq2]
      · simp [insertGroup, groupGet, hk, hq, ih]

theorem groupGet_foldl (l : List CommitRec)
    (acc : List (String × List (Int × String))) (e : String) :
    groupGet (l.foldl (fun acc r => insertGroup acc r.email (r.utc, r.title)) acc) e
      = groupGet acc e
        ++ (l.filter (fun r => decide (r.email = e))).map (fun r => (r.utc, r.title)) := by
  induction l generalizing acc with
  | nil => simp
  | cons r t ih =>
    simp only [List.foldl_cons]
    rw [ih, groupGet_insertGroup]
    by_cases he : r.email = e
    · subst he
      rw [if_pos rfl]
      simp [List.filter_cons]
    · rw [if_neg (fun h => he h.symm)]
      simp [List.filter_cons, he]

theorem sumSizes_insertGroup (acc : List (String × List (Int × String)))
    (e : String) (p : Int × String) :
    ((insertGroup acc e p).map (fun g => g.2.length)).sum
      = ((acc.map (fun g => g.2.length)).sum) + 1 := by
  induction acc with
  | nil => simp [insertGroup]
  | cons kv t ih =>
    obtain ⟨k, v⟩ := kv
    by_cases hk : k = e
    · simp [insertGroup, hk]
      omega
    · simp [insertGroup, hk, ih]
      omega

theorem sumSizes_foldl (l : List CommitRec)
    (acc : List (String × List (Int × String))) :
    (((l.foldl (fun acc r => insertGroup acc r.email (r.utc, r.title)) acc).map
        (fun g => g.2.length)).sum)
      = ((acc.map (fun g => g.2.length)).sum) + l.length := by
  induction l generalizing acc with
  | nil => simp
  | cons r t ih =>
    simp only [List.foldl_cons, List.length_cons]
    rw [ih, sumSizes_insertGroup]
    omega

theorem mem_keys_insertGroup (acc : List (String × List (Int × String)))
    (e : String) (p : Int × String) (q : String) :
    q ∈ (insertGroup acc e p).map Prod.fst ↔ q ∈ acc.map Prod.fst ∨ q = e := by
  induction acc with
  | nil => simp [insertGroup]
  | cons kv t ih =>
    obtain ⟨k, v⟩ := kv
    by_cases hk : k = e
    · subst hk
      have e1 : insertGroup ((k, v) :: t) k p = (k, v ++ [p]) :: t := by
        simp [insertGroup]
      rw [e1]
      simp only [List.map_cons, List.mem_cons]
      tauto
    · have e1 : insertGroup ((k, v) :: t) e p = (k, v) :: insertGroup t e p := by
        simp [insertGroup, hk]
      rw [e1]
      simp only [List.map_cons, List.mem_cons, ih]
      tauto

theorem nodup_keys_insertGroup (acc : List (String × List (Int × String)))
    (e : String) (p : Int × String) (h : (acc.map Prod.fst).Nodup) :
    ((insertGroup acc e p).map Prod.fst).Nodup := by
  induction acc with
  | nil => simp [insertGroup]
  | cons kv t ih =>
    obtain ⟨k, v⟩ := kv
    simp only [List.map_cons, List.nodup_cons] at h
    by_cases hk : k = e
    · subst hk
      have e1 : insertGroup ((k, v) :: t) k p = (k, v ++ [p]) :: t := by
        simp [insertGroup]
      rw [e1]
      simp only [List.map_cons, List.nodup_cons]
      exact h
    · have e1 : insertGroup ((k, v) :: t) e p = (k, v) :: insertGroup t e p := by
        simp [insertGroup, hk]
      rw [e1]
      simp only [List.map_cons, List.nodup_cons]
      refine ⟨?_, ih h.2⟩
      rw [mem_keys_insertGroup]
      rintro (hm | hm)
      · exact h.1 hm
      · exact hk hm

theorem nodup_keys_foldl (l : List CommitRec)
    (acc : List (String × List (Int × String))) (h : (acc.map Prod.fst).Nodup) :
    (((l.foldl (fun acc r => insertGroup acc r.email (r.utc, r.title)) acc).map
        Prod.fst)).Nodup := by
  induction l generalizing acc with
  | nil => simpa
  | cons r t ih =>
    simp only [List.foldl_cons]
    exact ih _ (nodup_keys_insertGroup _ _ _ h)

theorem mem_keys_foldl (l : List CommitRec)
    (acc : List (String × List (Int × String))) (q : String) :
    q ∈ ((l.foldl (fun acc r => insertGroup acc r.email (r.utc, r.title)) acc).map
        Prod.fst)
      ↔ q ∈ acc.map Prod.fst ∨ ∃ r ∈ l, r.email = q := by
  induction l generalizing acc with
  | nil => simp
  | cons r t ih =>
    simp only [List.foldl_cons]
    rw [ih, mem_keys_insertGroup]
    constructor
    · rintro ((hm | hm) | ⟨s, hs, hq⟩)
      · exact Or.inl hm
      · exact Or.inr ⟨r, by simp, hm.symm⟩
      · exact Or.inr ⟨s, by simp [hs], hq⟩
    · rintro (hm | ⟨s, hs, hq⟩)
      · exact Or.inl (Or.inl hm)
      · rcases List.mem_cons.mp hs with hs | hs
        · exact Or.inl (Or.inr (by rw [← hq, hs]))
        · exact Or.inr ⟨s, hs, hq⟩

/-! ## Claim theorems -/

/-- C9: Timezone conversion is deterministic with DST applied per date: the
UTC timestamp 2024-01-15T20:00:00Z converts to 2024-01-15 12:00:00 PM
Pacific Standard Time (UTC-8), and the UTC timestamp 2024-07-15T20:00:00Z
converts to 2024-07-15 01:00:00 PM Pacific Daylight Time (UTC-7). -/
theorem c9_timezone_conversion_deterministic :
    pyFromIso (pyReplaceZ "2024-01-15T20:00:00Z")
      = some ⟨2024, 1, 15, 20, 0, 0, some 0⟩
  ∧ laIsDst (toUtcSec 0 ⟨2024, 1, 15, 20, 0, 0, some 0⟩) = false
  ∧ laOffset (toUtcSec 0 ⟨2024, 1, 15, 20, 0, 0, some 0⟩) = -8 * 3600
  ∧ dayOf (toUtcSec 0 ⟨2024, 1, 15, 20, 0, 0, some 0⟩) = (2024, 1, 15)
  ∧ localHMS (toUtcSec 0 ⟨2024, 1, 15, 20, 0, 0, some 0⟩) = (12, 0, 0)
  ∧ strftimeLine (toUtcSec 0 ⟨2024, 1, 15, 20, 0, 0, some 0⟩)
      = "Monday, 2024-01-15 12:00:00 PM PST"
  ∧ pyFromIso (pyReplaceZ "2024-07-15T20:00:00Z")
      = some ⟨2024, 7, 15, 20, 0, 0, some 0⟩
  ∧ laIsDst (toUtcSec 0 ⟨2024, 7, 15, 20, 0, 0, some 0⟩) = true
  ∧ laOffset (toUtcSec 0 ⟨2024, 7, 15, 20, 0, 0, some 0⟩) = -7 * 3600
  ∧ dayOf (toUtcSec 0 ⟨2024, 7, 15, 20, 0, 0, some 0⟩) = (2024, 7, 15)
  ∧ localHMS (toUtcSec 0 ⟨2024, 7, 15, 20, 0, 0, some 0⟩) = (13, 0, 0)
  ∧ strftimeLine (toUtcSec 0 ⟨2024, 7, 15, 20, 0, 0, some 0⟩)
      = "Monday, 2024-07-15 01:00:00 PM PDT" := by
  decide

/-- C10: Lines that are empty or consist only of whitespace are skipped
silently: they produce no CommitRecord and no parse warning. -/
theorem c10_blank_lines_skipped_silently (sysOff : Int) (line : String)
    (rest : List String) (h : pyStrip line = "") :
    processLines sysOff (line :: rest) = processLines sysOff rest := by
  simp [processLines, h]

/-- C10 witness: the whitespace-only line "  " is skipped silently. -/
theorem c10_blank_lines_witness :
    pyStrip "  " = ""
  ∧ processLines 0 ["  ", "a@x|2024-01-15T20:00:00Z|t"]
      = processLines 0 ["a@x|2024-01-15T20:00:00Z|t"] :=
  ⟨by decide, c10_blank_lines_skipped_silently 0 "  " ["a@x|2024-01-15T20:00:00Z|t"]
      (by decide)⟩

/-- C3 counterexample: the code replaces EVERY `Z` in the date field, not
only a trailing one.  On the field `2024-01-15Z10:00:00+00:00` (a `Z` used
as the date-time separator, which `fromisoformat` accepts), the code with its
replace-all rewrite makes parsing fail, while the trailing-only rule accepts
the field, so the whole log line is dropped where the claim says it is
kept. -/
theorem c3_counterexample_nontrailing_z :
    (pyFromIso (pyReplaceZ "2024-01-15Z10:00:00+00:00")).isNone = true
  ∧ (pyFromIso (replaceTrailingZ "2024-01-15Z10:00:00+00:00")).isSome = true
  ∧ parseLine 0 "a@x|2024-01-15Z10:00:00+00:00|t" = none := by
  decide

/-- C3 amended: the date field is parsed as ISO-8601 after replacing every
occurrence of `Z` by `+00:00`; when the field has no non-trailing `Z` this
coincides with the trailing-only rule. -/
theorem c3_amended_replace_all_z (s : String)
    (h : hasNonTrailingZ s.data = false) :
    pyFromIso (pyReplaceZ s) = pyFromIso (replaceTrailingZ s) := by
  unfold pyReplaceZ replaceTrailingZ
  rw [replaceZ_eq_replaceTrailing s.data h]

/-- C3 witness: on a field whose only `Z` is trailing, the parse in the code
agrees with the trailing-only rule. -/
theorem c3_amended_witness :
    hasNonTrailingZ "2024-01-15T10:00:00Z".data = false
  ∧ pyFromIso (pyReplaceZ "2024-01-15T10:00:00Z")
      = pyFromIso (replaceTrailingZ "2024-01-15T10:00:00Z") :=
  ⟨by decide, c3_amended_replace_all_z "2024-01-15T10:00:00Z" (by decide)⟩

/-- C4 counterexample: a blank line is neither a CommitRecord nor a
malformed (warned-about) line, so on the one-line input [""] the record
count (0) differs from lines minus malformed lines (1 - 0). -/
theorem c4_counterexample_blank_line :
    (processLines 0 [""]).1.length
      ≠ ([""] : List String).length - (processLines 0 [""]).2.length := by
  decide

/-- C4 amended: the number of CommitRecords returned equals the number of
non-whitespace-only input lines minus the number of malformed lines (each
malformed line is excluded with a warning and parsing continues). -/
theorem c4_amended_record_count (sysOff : Int) (ls : List String) :
    (processLines sysOff ls).1.length
      = (ls.filter (fun l => !decide (pyStrip l = ""))).length
        - (processLines sysOff ls).2.length := by
  have h := processLines_count sysOff ls
  omega

/-- C1 counterexample: on a log with one Saturday commit (2024-01-13) and
one Monday commit (2024-01-15), the reported weekday-only average is
2 (total commits 2 divided by 1 weekday day, the Saturday commit included in
the numerator), while the per-day-average formula restricted to weekday keys
gives 1 — so the restricted formula does not determine the reported
value. -/
theorem c1_counterexample_weekend_in_numerator :
    avgPerWeekdayOf (commitsPerDay (sortCommits (processLines 0
        ["a@x|2024-01-13T10:00:00-08:00|wk", "a@x|2024-01-15T10:00:00-08:00|mf"]).1)) = 2
  ∧ specAvgPerWeekday (commitsPerDay (sortCommits (processLines 0
        ["a@x|2024-01-13T10:00:00-08:00|wk", "a@x|2024-01-15T10:00:00-08:00|mf"]).1)) = 1 := by
  have hcs : commitsPerDay (sortCommits (processLines 0
        ["a@x|2024-01-13T10:00:00-08:00|wk", "a@x|2024-01-15T10:00:00-08:00|mf"]).1)
      = [((2024, 1, 13), 1), ((2024, 1, 15), 1)] := by decide
  rw [hcs]
  constructor
  · have h1 : weekdayKeysOf [((2024, 1, 13), 1), ((2024, 1, 15), 1)]
        = [((2024 : Int), 1, 15)] := by decide
    have h2 : totalOf [((2024, 1, 13), 1), ((2024, 1, 15), 1)] = 2 := by decide
    simp only [avgPerWeekdayOf, h1, h2]
    norm_num
  · have h3 : List.filter (fun p => decide (pyWeekdayOfDate p.1 < 5))
        [((2024, 1, 13), 1), ((2024, 1, 15), 1)] = [((2024, 1, 15), 1)] := by decide
    have h4 : totalOf [((2024, 1, 15), 1)] = 1 := by decide
    simp only [specAvgPerWeekday, h3, h4]
    norm_num

/-- C1 amended: the reported weekday-only average is the TOTAL commit count
(all calendar days, weekend commits included) divided by the number of
distinct Monday-Friday calendar days present in DailyCounts, and 0 when
there are no weekday keys; it coincides with the weekday-restricted formula
when every day key is a weekday. -/
theorem c1_amended_weekday_average (cs : List (PDate × Nat)) :
    ((weekdayKeysOf cs).length = 0 → avgPerWeekdayOf cs = 0)
  ∧ ((weekdayKeysOf cs).length ≠ 0 →
      avgPerWeekdayOf cs = (totalOf cs : ℚ) / ((weekdayKeysOf cs).length : ℚ))
  ∧ ((∀ p ∈ cs, pyWeekdayOfDate p.1 < 5) →
      avgPerWeekdayOf cs = specAvgPerWeekday cs) := by
  refine ⟨?_, ?_, ?_⟩
  · intro h; simp [avgPerWeekdayOf, h]
  · intro h; simp [avgPerWeekdayOf, h]
  · intro h
    have hf : cs.filter (fun p => decide (pyWeekdayOfDate p.1 < 5)) = cs :=
      List.filter_eq_self.mpr (fun a ha => by simpa using h a ha)
    have hm : (cs.map Prod.fst).filter (fun d => decide (pyWeekdayOfDate d < 5))
        = cs.map Prod.fst :=
      List.filter_eq_self.mpr (fun d hd => by
        obtain ⟨p, hp, rfl⟩ := List.mem_map.mp hd
        simpa using h p hp)
    simp only [avgPerWeekdayOf, specAvgPerWeekday, weekdayKeysOf, hf, hm,
      List.length_map]

/-- C1 witness: when every day key is a weekday the reported weekday-only
average agrees with the restricted formula. -/
theorem c1_amended_witness :
    avgPerWeekdayOf [((2024, 1, 15), 2)] = specAvgPerWeekday [((2024, 1, 15), 2)] :=
  (c1_amended_weekday_average _).2.2 (by decide)

/-- C7 counterexample: for the non-empty DailyCounts of a single Saturday
commit, the weekday average (0) times the weekday-day count (0) is not the
total commit count (1). -/
theorem c7_counterexample_weekend_only :
    commitsPerDay (processLines 0 ["a@x|2024-01-13T10:00:00-08:00|t"]).1 ≠ []
  ∧ avgPerWeekdayOf (commitsPerDay (processLines 0
        ["a@x|2024-01-13T10:00:00-08:00|t"]).1)
      * ((weekdayKeysOf (commitsPerDay (processLines 0
          ["a@x|2024-01-13T10:00:00-08:00|t"]).1)).length : ℚ)
      ≠ (totalOf (commitsPerDay (processLines 0
          ["a@x|2024-01-13T10:00:00-08:00|t"]).1) : ℚ) := by
  have hcs : commitsPerDay (processLines 0 ["a@x|2024-01-13T10:00:00-08:00|t"]).1
      = [((2024, 1, 13), 1)] := by decide
  rw [hcs]
  constructor
  · simp
  · have h1 : weekdayKeysOf [((2024, 1, 13), 1)] = ([] : List PDate) := by decide
    have h2 : totalOf [((2024, 1, 13), 1)] = 1 := by decide
    simp only [avgPerWeekdayOf, h1, h2]
    norm_num

/-- C7 amended: the average per day times the distinct-day count equals the
total commit count exactly whenever DailyCounts is non-empty, and the
average is 0 when there are no days; the weekday average times the
weekday-day count equals the total commit count whenever at least one
weekday key is present, and the weekday average is 0 when there is none. -/
theorem c7_amended_average_identities (cs : List (PDate × Nat)) :
    (cs ≠ [] → avgPerDayOf cs * (numDaysOf cs : ℚ) = (totalOf cs : ℚ))
  ∧ (cs = [] → avgPerDayOf cs = 0)
  ∧ ((weekdayKeysOf cs).length ≠ 0 →
      avgPerWeekdayOf cs * ((weekdayKeysOf cs).length : ℚ) = (totalOf cs : ℚ))
  ∧ ((weekdayKeysOf cs).length = 0 → avgPerWeekdayOf cs = 0) := by
  refine ⟨?_, ?_, ?_, ?_⟩
  · intro h
    have hn : numDaysOf cs ≠ 0 := by
      simpa [numDaysOf, List.length_eq_zero] using h
    simp only [avgPerDayOf, hn, ne_eq, not_false_eq_true, if_true]
    rw [div_mul_cancel₀]
    exact Nat.cast_ne_zero.mpr hn
  · intro h; simp [avgPerDayOf, h, numDaysOf]
  · intro h
    simp only [avgPerWeekdayOf, h, ne_eq, not_false_eq_true, if_true]
    rw [div_mul_cancel₀]
    exact Nat.cast_ne_zero.mpr h
  · intro h; simp [avgPerWeekdayOf, h]

/-- C7 witness: both exact identities at the DailyCounts of a single Monday
with two commits. -/
theorem c7_amended_witness :
    avgPerDayOf [((2024, 1, 15), 2)] * (numDaysOf [((2024, 1, 15), 2)] : ℚ)
      = (totalOf [((2024, 1, 15), 2)] : ℚ)
  ∧ avgPerWeekdayOf [((2024, 1, 15), 2)]
      * ((weekdayKeysOf [((2024, 1, 15), 2)]).length : ℚ)
      = (totalOf [((2024, 1, 15), 2)] : ℚ) :=
  ⟨(c7_amended_average_identities _).1 (by decide),
   (c7_amended_average_identities _).2.2.1 (by decide)⟩

/-- C5: every commit list returned by get_commit_log is sorted
non-decreasingly by the key (committer_email ascending, then timestamp
ascending) — a total preorder — and is a permutation of the parsed records
(the sort reorders, never adds or drops). -/
theorem c5_returned_list_sorted (env : Env) (p : String) (l : List CommitRec)
    (h : (getCommitLog env p).result = some l) :
    List.Sorted (fun a b => recLe a b = true) l ∧ l.Perm (parsedOf env) := by
  obtain ⟨pe, ge, run, so⟩ := env
  cases pe
  · simp [getCommitLog] at h
  · cases ge
    · simp [getCommitLog] at h
    · cases run with
      | error msg => simp [getCommitLog] at h
      | ok out =>
        cases hemp : (processLines so (pySplitlines out)).1.isEmpty with
        | true => simp [getCommitLog, hemp] at h
        | false =>
          have hl : l = sortCommits (processLines so (pySplitlines out)).1 := by
            simp [getCommitLog, hemp] at h
            exact h.symm
          subst hl
          refine ⟨List.sorted_insertionSort _ _, ?_⟩
          have hperm := List.perm_insertionSort
            (fun a b : CommitRec => recLe a b = true)
            (processLines so (pySplitlines out)).1
          simpa [parsedOf, sortCommits] using hperm

/-- C5 witness: a concrete two-commit run returns the records sorted by
email then timestamp, a permutation of the parsed records. -/
theorem c5_sorted_witness :
    (getCommitLog ⟨true, true,
        .ok "b@x|2024-01-01T11:00:00Z|f\na@x|2024-01-01T10:00:00Z|g", 0⟩ "r").result
      = some [⟨"a@x", 1704103200, "g"⟩, ⟨"b@x", 1704106800, "f"⟩]
  ∧ (List.Sorted (fun a b => recLe a b = true)
        [⟨"a@x", 1704103200, "g"⟩, ⟨"b@x", 1704106800, "f"⟩]
      ∧ List.Perm [⟨"a@x", 1704103200, "g"⟩, ⟨"b@x", 1704106800, "f"⟩]
          (parsedOf ⟨true, true,
            .ok "b@x|2024-01-01T11:00:00Z|f\na@x|2024-01-01T10:00:00Z|g", 0⟩)) :=
  ⟨by decide,
   c5_returned_list_sorted
     ⟨true, true, .ok "b@x|2024-01-01T11:00:00Z|f\na@x|2024-01-01T10:00:00Z|g", 0⟩
     "r" [⟨"a@x", 1704103200, "g"⟩, ⟨"b@x", 1704106800, "f"⟩] (by decide)⟩

/-- C6: grouping by committer email partitions the sorted records exactly:
group sizes sum to the record count, group keys are distinct, a key is
present exactly when some record has that email, each group holds exactly
the (timestamp, title) pairs of the records with its email in sorted order,
and within each group the timestamps are chronological. -/
theorem c6_grouping_partitions (rs : List CommitRec) :
    ((commitsByEmail (sortCommits rs)).map (fun g => g.2.length)).sum
        = (sortCommits rs).length
  ∧ ((commitsByEmail (sortCommits rs)).map Prod.fst).Nodup
  ∧ (∀ e, e ∈ (commitsByEmail (sortCommits rs)).map Prod.fst
        ↔ ∃ r ∈ sortCommits rs, r.email = e)
  ∧ (∀ e, groupGet (commitsByEmail (sortCommits rs)) e
        = ((sortCommits rs).filter (fun r => decide (r.email = e))).map
            (fun r => (r.utc, r.title)))
  ∧ (∀ e, List.Pairwise (fun a b : Int × String => a.1 ≤ b.1)
        (groupGet (commitsByEmail (sortCommits rs)) e)) := by
  have hget : ∀ e, groupGet (commitsByEmail (sortCommits rs)) e
      = ((sortCommits rs).filter (fun r => decide (r.email = e))).map
          (fun r => (r.utc, r.title)) := by
    intro e
    have h := groupGet_foldl (sortCommits rs) [] e
    simpa [commitsByEmail, groupGet] using h
  refine ⟨?_, ?_, ?_, hget, ?_⟩
  · have h := sumSizes_foldl (sortCommits rs) []
    simpa [commitsByEmail] using h
  · have h := nodup_keys_foldl (sortCommits rs) [] (by simp)
    simpa [commitsByEmail] using h
  · intro e
    have h := mem_keys_foldl (sortCommits rs) [] e
    simpa [commitsByEmail] using h
  · intro e
    rw [hget e]
    have hs : List.Sorted (fun a b => recLe a b = true) (sortCommits rs) :=
      List.sorted_insertionSort _ _
    have hpf : List.Pairwise (fun a b => recLe a b = true)
        ((sortCommits rs).filter (fun r => decide (r.email = e))) :=
      hs.filter _
    refine List.pairwise_map.mpr ?_
    refine List.Pairwise.imp_of_mem ?_ hpf
    intro a b ha hb hab
    have hae : a.email = e := by simpa using (List.mem_filter.mp ha).2
    have hbe : b.email = e := by simpa using (List.mem_filter.mp hb).2
    have hab2 : listLt a.email.data b.email.data = true
        ∨ (a.email = b.email ∧ a.utc ≤ b.utc) := by
      simpa [recLe, Bool.or_eq_true, Bool.and_eq_true, decide_eq_true_eq] using hab
    rcases hab2 with hlt | ⟨-, hle⟩
    · have he : a.email = b.email := hae.trans hbe.symm
      rw [he, listLt_irrefl] at hlt
      exact absurd hlt (by simp)
    · exact hle

/-- C2: an empty-after-filtering run is observably distinct from a
tool-invocation failure: it ends with a "no valid commits" warning line
while a failed git invocation prints an error line, so the two outcomes
always differ. -/
theorem c2_empty_distinct_from_tool_failure
    (e1 e2 : Env) (p1 p2 out msg : String)
    (h1p : e1.pathExists = true) (h1g : e1.gitExists = true)
    (h1r : e1.gitRun = .ok out)
    (hempty : (processLines e1.sysOff (pySplitlines out)).1 = [])
    (h2p : e2.pathExists = true) (h2g : e2.gitExists = true)
    (h2r : e2.gitRun = .error msg) :
    getCommitLog e1 p1 ≠ getCommitLog e2 p2 := by
  obtain ⟨pe1, ge1, run1, so1⟩ := e1
  obtain ⟨pe2, ge2, run2, so2⟩ := e2
  simp only at h1p h1g h1r hempty h2p h2g h2r
  subst h1p h1g h1r h2p h2g h2r
  have hemp : (processLines so1 (pySplitlines out)).1.isEmpty = true := by
    rw [hempty]; rfl
  have hv1 : getCommitLog ⟨true, true, .ok out, so1⟩ p1
      = ⟨(processLines so1 (pySplitlines out)).2
          ++ ["Warning: No valid commits found in repository \x27" ++ p1 ++ "\x27"],
         none, true⟩ := by
    simp [getCommitLog, hemp]
  have hv2 : getCommitLog ⟨true, true, .error msg, so2⟩ p2
      = ⟨["Error running git command: " ++ msg], none, true⟩ := by
    simp [getCommitLog]
  rw [hv1, hv2]
  intro hEq
  have hpr : (processLines so1 (pySplitlines out)).2
      ++ ["Warning: No valid commits found in repository \x27" ++ p1 ++ "\x27"]
      = ["Error running git command: " ++ msg] := by
    simpa [RunResult.mk.injEq] using hEq
  have hlast := congrArg List.getLast? hpr
  rw [List.getLast?_concat] at hlast
  have hw : ("Warning: No valid commits found in repository \x27" ++ p1 ++ "\x27")
      = "Error running git command: " ++ msg := by
    simpa using hlast
  have hheads := congrArg (fun s => s.data.head?) hw
  simp only at hheads
  rw [show ("Warning: No valid commits found in repository \x27" ++ p1
        ++ "\x27").data.head? = some 'W' by
      rw [String.data_append, String.data_append]; rfl,
    show ("Error running git command: " ++ msg).data.head? = some 'E' by
      rw [String.data_append]; rfl] at hheads
  exact absurd (Option.some.inj hheads) (by decide)

/-- C2 witness: a concrete empty-output run differs observably from a
concrete failed-invocation run. -/
theorem c2_distinct_witness :
    (processLines (0 : Int) (pySplitlines "")).1 = []
  ∧ getCommitLog ⟨true, true, .ok "", 0⟩ "r"
      ≠ getCommitLog ⟨true, true, .error "boom", 0⟩ "r" :=
  ⟨by decide,
   c2_empty_distinct_from_tool_failure ⟨true, true, .ok "", 0⟩
     ⟨true, true, .error "boom", 0⟩ "r" "r" "" "boom"
     rfl rfl rfl (by decide) rfl rfl rfl⟩

/-- C8: for a non-existent path, and for an existing path without the .git
marker, get_commit_log prints a descriptive diagnostic and returns the
absence value without invoking git (and, being a total function, without
raising). -/
theorem c8_path_validation_fails_fast (env : Env) (p : String) :
    (env.pathExists = false →
      getCommitLog env p
        = ⟨["Error: Path \x27" ++ p ++ "\x27 does not exist."], none, false⟩)
  ∧ (env.pathExists = true → env.gitExists = false →
      getCommitLog env p
        = ⟨["Error: \x27" ++ p ++ "\x27 is not a valid Git repository."],
           none, false⟩) := by
  constructor
  · intro h
    simp [getCommitLog, h]
  · intro h1 h2
    simp [getCommitLog, h1, h2]

/-- C8 witness: both validation failures at concrete environments. -/
theorem c8_path_validation_witness :
    getCommitLog ⟨false, true, .ok "", 0⟩ "/nope"
      = ⟨["Error: Path \x27/nope\x27 does not exist."], none, false⟩
  ∧ getCommitLog ⟨true, false, .ok "", 0⟩ "/plain"
      = ⟨["Error: \x27/plain\x27 is not a valid Git repository."], none, false⟩ :=
  ⟨(c8_path_validation_fails_fast ⟨false, true, .ok "", 0⟩ "/nope").1 rfl,
   (c8_path_validation_fails_fast ⟨true, false, .ok "", 0⟩ "/plain").2 rfl rfl⟩

end GitAnalytics
